import Mathlib

/-!
Verification of the tree-rendering formatter: a shallow embedding of the
span-tracking and tree-rendering engine (lib.rs, format.rs, time.rs) and
proofs of the specified properties.

Spans are identified by opaque numeric ids, modelled as `Nat`.  The
instrumentation framework (registry, span lookup, scope paths) is an
external collaborator; it is modelled by the `Ctx` record, whose
well-formedness (root paths are parent chains) appears as hypotheses on
the theorems that need it.
-/

namespace TracingTree

/-! ## format.rs : glyph constants and rendering modes -/

def LINE_VERT : String := "│"

def LINE_HORIZ : String := "─"

def LINE_BRANCH : String := "├"

def LINE_CLOSE : String := "┘"

def LINE_CLOSE2 : Char := '┌'

def LINE_OPEN : String := "┐"

def LINE_OPEN2 : Char := '└'

/-- The `SpanMode` enum from format.rs. -/
inductive SpanMode where
  | PreOpen : SpanMode
  | Open (verbose : Bool) : SpanMode
  | Close (verbose : Bool) : SpanMode
  | Retrace (verbose : Bool) : SpanMode
  | PostClose : SpanMode
  | Event : SpanMode
deriving DecidableEq, Repr

/-- The `Config` struct from format.rs. -/
structure Config where
  ansi : Bool
  indent_lines : Bool
  indent_amount : Nat
  targets : Bool
  render_thread_ids : Bool
  render_thread_names : Bool
  wraparound : Nat
  verbose_entry : Bool
  verbose_exit : Bool
  span_retrace : Bool
  bracketed_fields : Bool
  deferred_spans : Bool
  span_modes : Bool
deriving Repr

/-- The `Default` impl for `Config`; `usize::MAX` is 2^64 - 1. -/
def Config.default : Config where
  ansi := true
  indent_lines := false
  indent_amount := 2
  targets := false
  render_thread_ids := false
  render_thread_names := false
  wraparound := 18446744073709551615
  verbose_entry := false
  verbose_exit := false
  span_retrace := false
  bracketed_fields := false
  deferred_spans := false
  span_modes := false

/-! ## String helpers mirroring the Rust string operations -/

/-- A run of `n` spaces, as produced by pushing `' '` in a loop. -/
def spaces (n : Nat) : String := String.mk (List.replicate n ' ')

/-- A run of `n` copies of `LINE_HORIZ`, as produced by pushing it in a loop. -/
def hfill (n : Nat) : String := String.join (List.replicate n LINE_HORIZ)

/-- Split a character list at newlines, keeping every segment. -/
def splitNl : List Char → List Char → List String
  | [], acc => [String.mk acc.reverse]
  | c :: cs, acc =>
      if c = '\n' then String.mk acc.reverse :: splitNl cs []
      else splitNl cs (c :: acc)

/-- Rust's `str::lines()`: split on newline, no trailing empty line. -/
def rustLines (s : String) : List String :=
  let parts := splitNl s.data []
  if parts.getLast? = some "" then parts.dropLast else parts

/-! ## format.rs : `indent_block_with_lines`, `indent_block`, `indent_current`

These are the pure string-drawing functions.  `indent_current` is the
`Buffers::indent_current` method; since its whole effect is to transform
the staged `current_buf` into the final text that is flushed, it is
modelled as a function from the staged content to the flushed text.  The
`pfx` argument stands for `config.prefix()`, whose value is derived from
the runtime thread id/name (external). -/

def indent_block_with_lines (lines : List String) (indent indent_amount : Nat)
    (pfx : String) (style : SpanMode) : String :=
  let indent_spaces := indent * indent_amount
  match lines with
  | [] => ""
  | l0 :: rest =>
    if indent_spaces = 0 then
      String.join ((l0 :: rest).map (fun line =>
        pfx ++ (if indent = 0 then
          match style with
          | .Open _ | .Retrace _ => LINE_OPEN
          | .Close _ => LINE_CLOSE
          | .PreOpen | .PostClose | .Event => ""
        else "") ++ line ++ "\n"))
    else
      let s := pfx ++ spaces (indent_spaces - indent_amount)
      let branch :=
        match style with
        | .PreOpen =>
            String.singleton LINE_OPEN2 ++ hfill (indent_amount / 2 - 1) ++ LINE_OPEN
        | .Open false | .Retrace false =>
            String.singleton LINE_OPEN2 ++ hfill (indent_amount - 1) ++ LINE_OPEN
        | .Open true | .Retrace true =>
            " " ++ spaces (indent_amount / 2 - 1)
              ++ (if indent_amount > 1 then String.singleton LINE_OPEN2 else "")
              ++ hfill (indent_amount - 1 - indent_amount / 2)
              ++ (if indent_amount > 1 then LINE_OPEN else " ")
        | .Close false =>
            String.singleton LINE_CLOSE2 ++ hfill (indent_amount - 1) ++ LINE_CLOSE
        | .Close true =>
            " " ++ spaces (indent_amount / 2 - 1)
              ++ (if indent_amount > 1 then String.singleton LINE_CLOSE2 else "")
              ++ hfill (indent_amount - 1 - indent_amount / 2)
              ++ (if indent_amount > 1 then LINE_CLOSE else " ")
        | .PostClose =>
            String.singleton LINE_CLOSE2 ++ hfill (indent_amount / 2 - 1) ++ LINE_CLOSE
        | .Event =>
            LINE_BRANCH ++ hfill (indent_amount - 1)
      let sc := s ++ (match style with
            | .Open _ | .Retrace _ => "  "
            | .Close _ => " "
            | _ => "") ++ LINE_VERT ++ spaces indent_amount
      s ++ branch ++ l0 ++ "\n"
        ++ String.join (rest.map (fun line => sc ++ line ++ "\n"))

def indent_block (block : String) (indent indent_amount : Nat)
    (indent_lines : Bool) (pfx : String) (style : SpanMode) : String :=
  let lines := rustLines block
  let indent_spaces := indent * indent_amount
  let indent2 := match style with
    | .PreOpen | .PostClose => indent + 1
    | _ => indent
  if indent_lines then
    indent_block_with_lines lines indent2 indent_amount pfx style
  else
    match lines with
    | [] => ""
    | l0 :: rest =>
      (pfx ++ " " ++ spaces indent_spaces ++ l0 ++ "\n")
        ++ String.join (rest.map (fun line =>
            pfx ++ " " ++ (spaces indent_spaces ++ "  ") ++ line ++ "\n"))

def indent_current (cfg : Config) (pfx : String) (indent : Nat)
    (style : SpanMode) (current_buf : String) : String :=
  let buf1 := if cfg.indent_lines then current_buf ++ "\n" else current_buf
  let preMark :=
    if cfg.indent_lines then
      match style with
      | .Close _ | .PostClose =>
          if 0 < indent ∧ (indent + 1) % cfg.wraparound = 0 then
            pfx ++ hfill (indent % cfg.wraparound * cfg.indent_amount) ++ LINE_OPEN ++ "\n"
          else ""
      | _ => ""
    else ""
  let postMark :=
    if cfg.indent_lines then
      match style with
      | .PreOpen | .Open _ =>
          if 0 < indent ∧ (indent + 1) % cfg.wraparound = 0 then
            pfx ++ hfill (indent % cfg.wraparound * cfg.indent_amount) ++ LINE_CLOSE ++ "\n"
          else ""
      | _ => ""
    else ""
  preMark
    ++ indent_block buf1 (indent % cfg.wraparound) cfg.indent_amount
        cfg.indent_lines pfx style
    ++ postMark

/-- The `write_span_mode` function from format.rs (label followed by a colon). -/
def write_span_mode (style : SpanMode) : String :=
  (match style with
    | .Open true => "open(v)"
    | .Open false => "open"
    | .Retrace false => "retrace"
    | .Retrace true => "retrace(v)"
    | .Close true => "close(v)"
    | .Close false => "close"
    | .PreOpen => "pre_open"
    | .PostClose => "post_close"
    | .Event => "event") ++ ": "

/-! ## time.rs : elapsed-time formatting -/

/-- Rust `std::time::Duration`, stored as total nanoseconds. -/
structure Duration where
  nanos : Nat
deriving DecidableEq, Repr

def Duration.as_millis (d : Duration) : Nat := d.nanos / 1000000

def Duration.as_secs (d : Duration) : Nat := d.nanos / 1000000000

/-- The `styled` helper from lib.rs.  The color library is external; a
dimmed/colored paint is modelled as wrapping in the SGR code with a reset. -/
def styled (ansi : Bool) (code : String) (text : String) : String :=
  if ansi then code ++ text ++ "\x1b[0m" else text

def dimCode : String := "\x1b[2m"

def greenBoldCode : String := "\x1b[1;32m"

/-- Rust format specifier `{n:>3}`: right-align in a field of width 3. -/
def rightAlign3 (s : String) : String := spaces (3 - s.length) ++ s

def write_style_timestamp (ansi : Bool) (timestamp : String) (unit : String) : String :=
  styled ansi dimCode timestamp ++ styled ansi dimCode unit

/-- The non-higher-precision `format_timestamp` from time.rs. -/
def format_timestamp (ansi : Bool) (elapsed : Duration) : String :=
  let millis := elapsed.as_millis
  let secs := elapsed.as_secs
  let nu : Nat × String :=
    if millis < 1000 then (millis, "ms")
    else if secs < 60 then (secs, "s ")
    else (secs / 60, "m ")
  let timestamp := rightAlign3 (toString nu.1)
  write_style_timestamp ansi timestamp nu.2

/-! ## lib.rs : the layer state machine at the level of emitted units

One flushed unit of output is either a span banner line (with its
`SpanMode`) or an event line.  The per-span `Data` extension (its
`written` flag and whether it exists at all) and `Buffers.current_span`
form the mutable state.  The registry (span lookup, parent links, scope
paths from the root) is the external framework, modelled by `Ctx`:
`path s` is `scope_path(s) = s.scope().from_root()`, `parent` is
`SpanRef::parent`, and `live s` says whether `ctx.span(s)` resolves. -/

structure Ctx where
  parent : Nat → Option Nat
  path : Nat → List Nat
  live : Nat → Bool

/-- Mutable state: the `written`/presence of each span's `Data` extension
plus `Buffers.current_span` (the last emitted span). -/
structure LayerState where
  written : Nat → Bool
  hasData : Nat → Bool
  current_span : Option Nat

/-- One flushed unit: a span banner with its mode, or an event line
(recording the event's contextual span). -/
inductive OutUnit where
  | span (id : Nat) (mode : SpanMode) : OutUnit
  | event (cur : Option Nat) : OutUnit
deriving DecidableEq, Repr

/-- The `DifferenceIter` from lib.rs, specialised to span ids compared by
identity: runs both lists side by side and yields exactly the items of
the right list at positions where the left list differs or is exhausted. -/
def differenceIter : List Nat → List Nat → List Nat
  | _, [] => []
  | [], y :: ys => y :: differenceIter [] ys
  | x :: xs, y :: ys =>
      if x = y then differenceIter xs ys else y :: differenceIter xs ys

/-- `old_span_id.and_then(|v| ctx.span(v)).map(scope_path)` flattened:
the previous span's root path, empty when it is absent or dead. -/
def oldPathOf (ctx : Ctx) (old : Option Nat) : List Nat :=
  match old with
  | some v => if ctx.live v then ctx.path v else []
  | none => []

/-- The reconciled suffix: the spans `write_retrace_span` marks for print. -/
def retraceDiff (ctx : Ctx) (old : Option Nat) (n : Nat) : List Nat :=
  differenceIter (oldPathOf ctx old) (ctx.path n)

def setWritten (st : LayerState) (s : Nat) (b : Bool) : LayerState :=
  { st with written := fun x => if x = s then b else st.written x }

/-- The `for (i, span) in new_path.enumerate()` loop body of
`write_retrace_span`: mark each traversed span written (capturing the
previous value; a span with no `Data` counts as unwritten and is not
marked), print the parent as `PreOpen` before the first span when
`pre_open`, and print the span as `Retrace`/`Open`. -/
def retraceLoop (ctx : Ctx) (pre_open : Bool) :
    List Nat → Nat → LayerState → LayerState × List OutUnit
  | [], _, st => (st, [])
  | s :: rest, i, st =>
    let was_written := if st.hasData s then st.written s else false
    let st1 := if st.hasData s then setWritten st s true else st
    let vp : Bool × List OutUnit :=
      if i == 0 && pre_open then
        match ctx.parent s with
        | some p => (true, [OutUnit.span p SpanMode.PreOpen])
        | none => (false, [])
      else (false, [])
    let unit := OutUnit.span s
      (if was_written then SpanMode.Retrace vp.1 else SpanMode.Open vp.1)
    let res := retraceLoop ctx pre_open rest (i + 1) st1
    (res.1, vp.2 ++ unit :: res.2)

/-- `write_retrace_span` from lib.rs: replace `current_span` with the new
span id capturing the prior value; if they differ, print the difference
of the two root paths. -/
def write_retrace_span (ctx : Ctx) (st : LayerState) (new_span : Nat)
    (pre_open : Bool) : LayerState × List OutUnit :=
  let old := st.current_span
  let st := { st with current_span := some new_span }
  if some new_span = old then (st, [])
  else retraceLoop ctx pre_open (retraceDiff ctx old new_span) 0 st

/-- `on_new_span` (body after the recursion guard): create the `Data`
extension if absent with `written = !deferred_spans`; in deferred mode
return before rendering; otherwise retrace or print the `Open` banner
(with a `PreOpen` line for the parent when verbose entry is on). -/
def on_new_span (cfg : Config) (ctx : Ctx) (st : LayerState) (id : Nat) :
    LayerState × List OutUnit :=
  let st := if st.hasData id then st else
    { st with
      hasData := fun x => if x = id then true else st.hasData x,
      written := fun x => if x = id then !cfg.deferred_spans else st.written x }
  if cfg.deferred_spans then (st, [])
  else if cfg.span_retrace then
    write_retrace_span ctx st id cfg.verbose_entry
  else
    let preOut := if cfg.verbose_entry then
        match ctx.parent id with
        | some p => [OutUnit.span p SpanMode.PreOpen]
        | none => []
      else []
    let st := { st with current_span := some id }
    (st, preOut ++ [OutUnit.span id (SpanMode.Open cfg.verbose_entry)])

/-- `on_event` (body after the recursion guard): resolve the event's
contextual span; if it resolves and retrace or deferred mode is on, run
the reconciler (passing `verbose_entry` as `pre_open`); then flush the
event line itself. -/
def on_event (cfg : Config) (ctx : Ctx) (st : LayerState) (cur : Option Nat) :
    LayerState × List OutUnit :=
  let resolved : Option Nat :=
    match cur with
    | some n => if ctx.live n then some n else none
    | none => none
  let step : LayerState × List OutUnit :=
    match resolved with
    | some n =>
        if cfg.span_retrace || cfg.deferred_spans then
          write_retrace_span ctx st n cfg.verbose_entry
        else (st, [])
    | none => (st, [])
  (step.1, step.2 ++ [OutUnit.event cur])

/-- `on_close` (body after the recursion guard): in deferred mode a span
whose `written` flag is not known to be true is closed silently;
otherwise print the `Close` banner, move focus to the parent, and print
`PostClose` for it when verbose exit is on. -/
def on_close (cfg : Config) (ctx : Ctx) (st : LayerState) (id : Nat) :
    LayerState × List OutUnit :=
  let mapWritten : Option Bool :=
    if st.hasData id then some (st.written id) else none
  if cfg.deferred_spans && !(mapWritten == some true) then (st, [])
  else
    let closeUnit := OutUnit.span id (SpanMode.Close cfg.verbose_exit)
    match ctx.parent id with
    | some p =>
        let st := { st with current_span := some p }
        (st, closeUnit ::
          (if cfg.verbose_exit then [OutUnit.span p SpanMode.PostClose] else []))
    | none => (st, [closeUnit])

/-! ## Recursion guard (lib.rs `is_recursive` / `RecursiveGuard`)

The thread-local `IS_EMPTY` flag is modelled as an explicit boolean
threaded through the guarded callbacks (`true` = this thread is not
currently inside a callback).  `compare_exchange` is the sequential
semantics of the atomic on a single thread's local flag. -/

def compare_exchange (cur expected new : Bool) : Bool × Bool :=
  if cur == expected then (new, true) else (cur, false)

/-- `is_recursive`: try to flip the thread-local flag from `true` to
`false`; returns the new flag value and whether the guard was acquired. -/
def is_recursive (is_empty : Bool) : Bool × Bool :=
  compare_exchange is_empty true false

def on_new_span_guarded (cfg : Config) (ctx : Ctx) (g : Bool)
    (st : LayerState) (id : Nat) : (Bool × LayerState) × List OutUnit :=
  let acq := is_recursive g
  if acq.2 then
    let res := on_new_span cfg ctx st id
    ((true, res.1), res.2)
  else ((acq.1, st), [])

def on_event_guarded (cfg : Config) (ctx : Ctx) (g : Bool)
    (st : LayerState) (cur : Option Nat) : (Bool × LayerState) × List OutUnit :=
  let acq := is_recursive g
  if acq.2 then
    let res := on_event cfg ctx st cur
    ((true, res.1), res.2)
  else ((acq.1, st), [])

def on_close_guarded (cfg : Config) (ctx : Ctx) (g : Bool)
    (st : LayerState) (id : Nat) : (Bool × LayerState) × List OutUnit :=
  let acq := is_recursive g
  if acq.2 then
    let res := on_close cfg ctx st id
    ((true, res.1), res.2)
  else ((acq.1, st), [])

/-! ## Traces of lifecycle callbacks -/

inductive Op where
  | newSpan (id : Nat) : Op
  | event (cur : Option Nat) : Op
  | close (id : Nat) : Op
deriving DecidableEq, Repr

def stepOp (cfg : Config) (ctx : Ctx) (op : Op) (st : LayerState) :
    LayerState × List OutUnit :=
  match op with
  | .newSpan id => on_new_span cfg ctx st id
  | .event cur => on_event cfg ctx st cur
  | .close id => on_close cfg ctx st id

def runOps (cfg : Config) (ctx : Ctx) :
    List Op → LayerState → LayerState × List OutUnit
  | [], st => (st, [])
  | op :: rest, st =>
    let r1 := stepOp cfg ctx op st
    let r2 := runOps cfg ctx rest r1.1
    (r2.1, r1.2 ++ r2.2)

/-! ## lib.rs : `write_span_info` at the string level -/

/-- The `print_kvs` helper: first pair unprefixed when its key is
`message`, subsequent pairs comma-separated `key=value`. -/
def print_kvs : List (String × String) → String
  | [] => ""
  | (k, v) :: rest =>
      (if k = "message" then v else k ++ "=" ++ v)
        ++ String.join (rest.map (fun kv => ", " ++ kv.1 ++ "=" ++ kv.2))

/-- The `should_write` match inside `write_span_info`. -/
def should_write (cfg : Config) (style : SpanMode) : Bool :=
  match style with
  | .Open _ | .Event => true
  | .PreOpen => cfg.verbose_entry
  | .Close verbose => verbose
  | .Retrace _ => true
  | .PostClose => true

/-- `write_span_info`, modelled as the text flushed for one span banner.
The span's attributes (name, target, recorded fields) and its depth
(`scope_path(span).skip(1).count()`) are passed in; `pfx` is the
thread-derived `config.prefix()`. -/
def write_span_info (cfg : Config) (pfx : String) (name target : String)
    (kvs : List (String × String)) (indent : Nat) (style : SpanMode) : String :=
  let buf0 := if cfg.span_modes then write_span_mode style else ""
  let buf1 :=
    if should_write cfg style then
      buf0
        ++ (if cfg.targets then styled cfg.ansi dimCode target ++ "::" else "")
        ++ styled cfg.ansi greenBoldCode name
        ++ (if cfg.bracketed_fields then styled cfg.ansi greenBoldCode "\x7b" else " ")
        ++ print_kvs kvs
        ++ (if cfg.bracketed_fields then styled cfg.ansi greenBoldCode "\x7d" else "")
    else buf0
  indent_current cfg pfx indent style buf1

/-! ## Derived notions used in the statements -/

/-- Longest common prefix of two root paths, compared pairwise from the
root by span-id identity. -/
def lcp : List Nat → List Nat → List Nat
  | x :: xs, y :: ys => if x = y then x :: lcp xs ys else []
  | _, _ => []

/-- `isChain par o l` : the list is a parent chain whose first element has
parent `o`; a root path of the registry is a chain from `none`.  This is
the external registry's contract for `scope().from_root()`. -/
def isChain (par : Nat → Option Nat) : Option Nat → List Nat → Bool
  | _, [] => true
  | o, x :: xs => (par x == o) && isChain par (some x) xs

def isOpenOrRetrace : OutUnit → Bool
  | .span _ (.Open _) => true
  | .span _ (.Retrace _) => true
  | _ => false

def isPreOpenUnit : OutUnit → Bool
  | .span _ .PreOpen => true
  | _ => false

def unitId : OutUnit → Nat
  | .span i _ => i
  | .event _ => 0

/-- An `Open` or `Retrace` banner line for span `n`. -/
def isBannerFor (n : Nat) : OutUnit → Bool
  | .span m (.Open _) => m == n
  | .span m (.Retrace _) => m == n
  | _ => false

def isCloseSide : SpanMode → Bool
  | .Close _ => true
  | .PostClose => true
  | _ => false

def isOpenSide : SpanMode → Bool
  | .PreOpen => true
  | .Open _ => true
  | _ => false

/-! ## Lemmas about `differenceIter` -/

theorem differenceIter_nil_left : ∀ q : List Nat, differenceIter [] q = q
  | [] => rfl
  | y :: ys => by
      rw [differenceIter, differenceIter_nil_left ys]

theorem differenceIter_sublist : ∀ (q p : List Nat), (differenceIter p q).Sublist q := by
  intro q
  induction q with
  | nil => intro p; cases p <;> simp [differenceIter]
  | cons y ys ih =>
    intro p
    cases p with
    | nil =>
      rw [differenceIter_nil_left]
    | cons x xs =>
      rw [differenceIter]
      by_cases h : x = y
      · rw [if_pos h]
        exact (ih xs).cons y
      · rw [if_neg h]
        exact (ih xs).cons₂ y

/-- Two chains hanging from distinct parents never agree at any position,
so the difference is the whole right chain. -/
theorem differenceIter_of_ne_origin (par : Nat → Option Nat) :
    ∀ (q p : List Nat) (a b : Nat), a ≠ b →
      isChain par (some a) p = true → isChain par (some b) q = true →
      differenceIter p q = q := by
  intro q
  induction q with
  | nil => intro p a b _ _ _; cases p <;> rfl
  | cons y ys ih =>
    intro p a b hab hp hq
    cases p with
    | nil => exact differenceIter_nil_left _
    | cons x xs =>
      rw [isChain, Bool.and_eq_true, beq_iff_eq] at hp hq
      have hxy : x ≠ y := by
        intro h
        exact hab (Option.some_injective _ (hp.1.symm.trans (h ▸ hq.1)))
      rw [differenceIter, if_neg hxy, ih xs x y hxy hp.2 hq.2]

/-- For two root paths of one registry (chains from a common origin), the
difference iterator yields exactly the suffix of the right path beyond
the longest common prefix. -/
theorem differenceIter_eq_drop (par : Nat → Option Nat) :
    ∀ (q p : List Nat) (o : Option Nat),
      isChain par o p = true → isChain par o q = true →
      differenceIter p q = q.drop (lcp p q).length := by
  intro q
  induction q with
  | nil => intro p o _ _; cases p <;> rfl
  | cons y ys ih =>
    intro p o hp hq
    cases p with
    | nil =>
      rw [differenceIter_nil_left]
      rfl
    | cons x xs =>
      rw [isChain, Bool.and_eq_true, beq_iff_eq] at hp hq
      by_cases h : x = y
      · rw [differenceIter, if_pos h, lcp, if_pos h]
        subst h
        exact ih xs (some x) hp.2 hq.2
      · rw [differenceIter, if_neg h, lcp, if_neg h,
          differenceIter_of_ne_origin par ys xs x y h hp.2 hq.2]
        rfl

/-! ## Lemmas about the `write_retrace_span` loop -/

theorem retraceLoop_fst (ctx : Ctx) (pre : Bool) (s : Nat) (rest : List Nat)
    (i : Nat) (st : LayerState) :
    (retraceLoop ctx pre (s :: rest) i st).1
      = (retraceLoop ctx pre rest (i + 1)
          (if st.hasData s then setWritten st s true else st)).1 := by
  rw [retraceLoop]

theorem retraceLoop_hasData (ctx : Ctx) (pre : Bool) :
    ∀ (ds : List Nat) (i : Nat) (st : LayerState),
      (retraceLoop ctx pre ds i st).1.hasData = st.hasData := by
  intro ds
  induction ds with
  | nil => intro i st; rfl
  | cons s rest ih =>
    intro i st
    rw [retraceLoop_fst]
    by_cases h : st.hasData s = true
    · rw [if_pos h, ih]; rfl
    · rw [if_neg h, ih]

theorem retraceLoop_current (ctx : Ctx) (pre : Bool) :
    ∀ (ds : List Nat) (i : Nat) (st : LayerState),
      (retraceLoop ctx pre ds i st).1.current_span = st.current_span := by
  intro ds
  induction ds with
  | nil => intro i st; rfl
  | cons s rest ih =>
    intro i st
    rw [retraceLoop_fst]
    by_cases h : st.hasData s = true
    · rw [if_pos h, ih]; rfl
    · rw [if_neg h, ih]

theorem retraceLoop_written_not_mem (ctx : Ctx) (pre : Bool) :
    ∀ (ds : List Nat) (i : Nat) (st : LayerState) (x : Nat), x ∉ ds →
      (retraceLoop ctx pre ds i st).1.written x = st.written x := by
  intro ds
  induction ds with
  | nil => intro i st x _; rfl
  | cons s rest ih =>
    intro i st x hx
    have hxs : x ≠ s := fun h => hx (h ▸ List.mem_cons_self s rest)
    have hxr : x ∉ rest := fun h => hx (List.mem_cons_of_mem s h)
    rw [retraceLoop_fst]
    by_cases h : st.hasData s = true
    · rw [if_pos h, ih _ _ x hxr]
      simp [setWritten, hxs]
    · rw [if_neg h]
      exact ih _ _ x hxr

theorem retraceLoop_written_mono (ctx : Ctx) (pre : Bool) :
    ∀ (ds : List Nat) (i : Nat) (st : LayerState) (x : Nat),
      st.written x = true →
      (retraceLoop ctx pre ds i st).1.written x = true := by
  intro ds
  induction ds with
  | nil => intro i st x hx; exact hx
  | cons s rest ih =>
    intro i st x hx
    rw [retraceLoop_fst]
    by_cases h : st.hasData s = true
    · rw [if_pos h]
      apply ih
      by_cases hxs : x = s
      · simp [setWritten, hxs]
      · simpa [setWritten, hxs] using hx
    · rw [if_neg h]
      exact ih _ _ _ hx

theorem retraceLoop_written_mem (ctx : Ctx) (pre : Bool) :
    ∀ (ds : List Nat) (i : Nat) (st : LayerState) (x : Nat), x ∈ ds →
      (∀ s ∈ ds, st.hasData s = true) →
      (retraceLoop ctx pre ds i st).1.written x = true := by
  intro ds
  induction ds with
  | nil => intro i st x hx; exact absurd hx (List.not_mem_nil x)
  | cons s rest ih =>
    intro i st x hx hdata
    have hs : st.hasData s = true := hdata s (List.mem_cons_self s rest)
    rw [retraceLoop_fst, if_pos hs]
    rcases List.mem_cons.mp hx with hxs | hxr
    · subst hxs
      exact retraceLoop_written_mono ctx pre rest (i + 1) _ x
        (by simp [setWritten])
    · refine ih _ _ _ hxr fun t ht => ?_
      exact hdata t (List.mem_cons_of_mem s ht)

theorem retraceLoop_or_ids (ctx : Ctx) (pre : Bool) :
    ∀ (ds : List Nat) (i : Nat) (st : LayerState),
      (((retraceLoop ctx pre ds i st).2).filter isOpenOrRetrace).map unitId
        = ds := by
  intro ds
  induction ds with
  | nil => intro i st; rfl
  | cons s rest ih =>
    intro i st
    rw [retraceLoop]
    by_cases hi : (i == 0 && pre) = true
    · cases hp : ctx.parent s <;>
        by_cases h : st.hasData s = true <;>
        by_cases hw : st.written s = true <;>
        simp [hi, hp, h, hw, isOpenOrRetrace, unitId, List.filter_append, ih]
    · by_cases h : st.hasData s = true <;>
        by_cases hw : st.written s = true <;>
        simp [hi, h, hw, isOpenOrRetrace, unitId, List.filter_append, ih]

theorem sndMemEnumFrom {α : Type} :
    ∀ (l : List α) (i : Nat) (p : Nat × α), p ∈ l.enumFrom i → p.2 ∈ l := by
  intro l
  induction l with
  | nil => intro i p hp; exact absurd hp (List.not_mem_nil p)
  | cons x xs ih =>
    intro i p hp
    rcases List.mem_cons.mp hp with h | h
    · subst h; exact List.mem_cons_self x xs
    · exact List.mem_cons_of_mem x (ih (i + 1) p h)

theorem or_not_preopen (u : OutUnit) :
    isOpenOrRetrace u = true → isPreOpenUnit u = false := by
  cases u with
  | event _ => intro h; exact absurd h (by simp [isOpenOrRetrace])
  | span s m => cases m <;> simp [isOpenOrRetrace, isPreOpenUnit]

theorem preopen_not_or (u : OutUnit) :
    isPreOpenUnit u = true → isOpenOrRetrace u = false := by
  cases u with
  | event _ => intro h; exact absurd h (by simp [isPreOpenUnit])
  | span s m => cases m <;> simp [isOpenOrRetrace, isPreOpenUnit]

theorem retraceLoop_or_units (ctx : Ctx) (pre : Bool) :
    ∀ (ds : List Nat) (i : Nat) (st : LayerState), ds.Nodup →
      (∀ s ∈ ds, st.hasData s = true) →
      ((retraceLoop ctx pre ds i st).2).filter isOpenOrRetrace
        = (ds.enumFrom i).map (fun p => OutUnit.span p.2
            ((if st.written p.2 then SpanMode.Retrace else SpanMode.Open)
              (p.1 == 0 && pre && (ctx.parent p.2).isSome))) := by
  intro ds
  induction ds with
  | nil => intro i st _ _; rfl
  | cons s rest ih =>
    intro i st hnd hdata
    have hs : st.hasData s = true := hdata s (List.mem_cons_self s rest)
    have hsr : s ∉ rest := (List.nodup_cons.mp hnd).1
    have hndr : rest.Nodup := (List.nodup_cons.mp hnd).2
    have hdr : ∀ t ∈ rest, (setWritten st s true).hasData t = true :=
      fun t ht => hdata t (List.mem_cons_of_mem s ht)
    have hres := ih (i + 1) (setWritten st s true) hndr hdr
    have hmap : (rest.enumFrom (i + 1)).map (fun p => OutUnit.span p.2
          ((if (setWritten st s true).written p.2 then SpanMode.Retrace
            else SpanMode.Open)
            (p.1 == 0 && pre && (ctx.parent p.2).isSome)))
        = (rest.enumFrom (i + 1)).map (fun p => OutUnit.span p.2
            ((if st.written p.2 then SpanMode.Retrace else SpanMode.Open)
              (p.1 == 0 && pre && (ctx.parent p.2).isSome))) := by
      refine List.map_congr_left fun p hp => ?_
      have hne : p.2 ≠ s := by
        intro h
        exact hsr (h ▸ sndMemEnumFrom rest (i + 1) p hp)
      simp [setWritten, hne]
    rw [retraceLoop]
    by_cases hi : (i == 0 && pre) = true
    · cases hp : ctx.parent s <;> by_cases hw : st.written s = true <;>
        simp [hi, hp, hw, hs, isOpenOrRetrace, List.filter_append, hres, hmap,
          List.enumFrom]
    · by_cases hw : st.written s = true <;>
        simp [hi, hw, hs, isOpenOrRetrace, List.filter_append, hres, hmap,
          List.enumFrom]

theorem retraceLoop_all_or (ctx : Ctx) (pre : Bool) :
    ∀ (ds : List Nat) (i : Nat) (st : LayerState), (i ≠ 0 ∨ pre = false) →
      ∀ u ∈ (retraceLoop ctx pre ds i st).2, isOpenOrRetrace u = true := by
  intro ds
  induction ds with
  | nil => intro i st _ u hu; exact absurd hu (List.not_mem_nil u)
  | cons s rest ih =>
    intro i st hc u hu
    have hi : (i == 0 && pre) = false := by
      rcases hc with h | h
      · simp [h]
      · simp [h]
    rw [retraceLoop] at hu
    simp only [hi, Bool.false_eq_true, if_false, List.nil_append,
      List.mem_cons] at hu
    rcases hu with h | h
    · subst h
      by_cases hw : (if st.hasData s then st.written s else false) = true <;>
        simp [hw, isOpenOrRetrace]
    · exact ih (i + 1) _ (Or.inl (Nat.succ_ne_zero i)) u h

theorem retraceLoop_filter_preopen_zero (ctx : Ctx) (pre : Bool)
    (ds : List Nat) (st : LayerState) :
    ((retraceLoop ctx pre ds 0 st).2).filter isPreOpenUnit
      = if pre then
          (match ds with
           | [] => []
           | s :: _ =>
             (match ctx.parent s with
              | some p => [OutUnit.span p SpanMode.PreOpen]
              | none => []))
        else [] := by
  cases pre with
  | false =>
    refine Eq.trans (List.filter_eq_nil_iff.mpr fun u hu => ?_) (by cases ds <;> rfl)
    have := retraceLoop_all_or ctx false ds 0 st (Or.inr rfl) u hu
    simp [or_not_preopen u this]
  | true =>
    cases ds with
    | nil => simp [retraceLoop]
    | cons s rest =>
      have hrest : ((retraceLoop ctx true rest 1
          (if st.hasData s then setWritten st s true else st)).2).filter
            isPreOpenUnit = [] := by
        refine List.filter_eq_nil_iff.mpr fun u hu => ?_
        have := retraceLoop_all_or ctx true rest 1 _
          (Or.inl Nat.one_ne_zero) u hu
        simp [or_not_preopen u this]
      rw [retraceLoop]
      cases hp : ctx.parent s <;>
        by_cases hw : (if st.hasData s then st.written s else false) = true <;>
        simp [hp, hw, List.filter_append, isPreOpenUnit, hrest]

theorem retraceLoop_decomp_zero (ctx : Ctx) (pre : Bool)
    (ds : List Nat) (st : LayerState) :
    (retraceLoop ctx pre ds 0 st).2
      = ((retraceLoop ctx pre ds 0 st).2).filter isPreOpenUnit
        ++ ((retraceLoop ctx pre ds 0 st).2).filter isOpenOrRetrace := by
  cases pre with
  | false =>
    have hall := retraceLoop_all_or ctx false ds 0 st (Or.inr rfl)
    have hor := List.filter_eq_self.mpr hall
    have hpre : ((retraceLoop ctx false ds 0 st).2).filter isPreOpenUnit = [] := by
      refine List.filter_eq_nil_iff.mpr fun u hu => ?_
      simp [or_not_preopen u (hall u hu)]
    rw [hor, hpre, List.nil_append]
  | true =>
    cases ds with
    | nil => rfl
    | cons s rest =>
      have hall := retraceLoop_all_or ctx true rest 1
        (if st.hasData s then setWritten st s true else st)
        (Or.inl Nat.one_ne_zero)
      have hor : ((retraceLoop ctx true rest 1
          (if st.hasData s then setWritten st s true else st)).2).filter
            isOpenOrRetrace
          = (retraceLoop ctx true rest 1
              (if st.hasData s then setWritten st s true else st)).2 :=
        List.filter_eq_self.mpr hall
      have hpre : ((retraceLoop ctx true rest 1
          (if st.hasData s then setWritten st s true else st)).2).filter
            isPreOpenUnit = [] := by
        refine List.filter_eq_nil_iff.mpr fun u hu => ?_
        simp [or_not_preopen u (hall u hu)]
      rw [retraceLoop]
      cases hp : ctx.parent s <;>
        by_cases hw : (if st.hasData s then st.written s else false) = true <;>
        simp [hp, hw, List.filter_append, isPreOpenUnit, isOpenOrRetrace,
          hor, hpre]

theorem isBannerFor_ite (n s : Nat) (c : Prop) [Decidable c] (v w : Bool) :
    isBannerFor n (OutUnit.span s
      (if c then SpanMode.Retrace v else SpanMode.Open w)) = (s == n) := by
  by_cases hc : c <;> simp [hc, isBannerFor]

theorem isBannerFor_preopen (n p : Nat) :
    isBannerFor n (OutUnit.span p SpanMode.PreOpen) = false := rfl

theorem retraceLoop_countP_banner (ctx : Ctx) (pre : Bool) :
    ∀ (ds : List Nat) (i : Nat) (st : LayerState) (n : Nat),
      ((retraceLoop ctx pre ds i st).2).countP (isBannerFor n)
        = ds.count n := by
  intro ds
  induction ds with
  | nil => intro i st n; rfl
  | cons s rest ih =>
    intro i st n
    rw [retraceLoop]
    by_cases hi : (i == 0 && pre) = true
    · cases hp : ctx.parent s <;>
        simp [hi, hp, List.countP_append, List.countP_cons, isBannerFor_ite,
          isBannerFor_preopen, ih, List.count_cons]
    · simp [hi, List.countP_append, List.countP_cons, isBannerFor_ite,
        isBannerFor_preopen, ih, List.count_cons]

theorem retraceLoop_units_shape (ctx : Ctx) (pre : Bool) :
    ∀ (ds : List Nat) (i : Nat) (st : LayerState) (u : OutUnit),
      u ∈ (retraceLoop ctx pre ds i st).2 →
      ∃ x ∈ ds, (∃ m, u = OutUnit.span x m)
        ∨ ∃ p, ctx.parent x = some p ∧ u = OutUnit.span p SpanMode.PreOpen := by
  intro ds
  induction ds with
  | nil => intro i st u hu; exact absurd hu (List.not_mem_nil u)
  | cons s rest ih =>
    intro i st u hu
    rw [retraceLoop] at hu
    rw [List.mem_append] at hu
    rcases hu with hu | hu
    · refine ⟨s, List.mem_cons_self s rest, Or.inr ?_⟩
      by_cases hi : (i == 0 && pre) = true
      · rcases hp : ctx.parent s with _ | p
        · rw [hi] at hu
          simp [hp] at hu
        · rw [hi] at hu
          simp only [hp, if_true] at hu
          rcases List.mem_singleton.mp hu with h
          exact ⟨p, rfl, h⟩
      · rw [if_neg hi] at hu
        exact absurd hu (List.not_mem_nil u)
    · rcases List.mem_cons.mp hu with h | h
      · exact ⟨s, List.mem_cons_self s rest, Or.inl ⟨_, h⟩⟩
      · rcases ih (i + 1) _ u h with ⟨x, hx, hcase⟩
        exact ⟨x, List.mem_cons_of_mem s hx, hcase⟩

/-! ## Lemmas about `write_retrace_span` and the callbacks -/

theorem LayerState.set_current_self (st : LayerState) (n : Nat)
    (h : st.current_span = some n) :
    ({ st with current_span := some n } : LayerState) = st := by
  cases st with
  | mk w hd c =>
    simp only at h
    rw [h]

theorem write_retrace_ne (ctx : Ctx) (st : LayerState) (n : Nat) (pre : Bool)
    (h : ¬ some n = st.current_span) :
    write_retrace_span ctx st n pre
      = retraceLoop ctx pre (retraceDiff ctx st.current_span n) 0
          { st with current_span := some n } := by
  rw [write_retrace_span, if_neg h]

theorem write_retrace_same (ctx : Ctx) (st : LayerState) (n : Nat) (pre : Bool)
    (h : st.current_span = some n) :
    write_retrace_span ctx st n pre = (st, []) := by
  rw [write_retrace_span, if_pos h.symm, LayerState.set_current_self st n h]

theorem write_retrace_current (ctx : Ctx) (st : LayerState) (n : Nat)
    (pre : Bool) :
    (write_retrace_span ctx st n pre).1.current_span = some n := by
  by_cases h : some n = st.current_span
  · rw [write_retrace_span, if_pos h]
  · rw [write_retrace_ne ctx st n pre h, retraceLoop_current]

theorem write_retrace_clean (ctx : Ctx) (s n : Nat) (st : LayerState)
    (pre : Bool)
    (H2n : ∀ x, x ∈ ctx.path n → s ∈ ctx.path x → s ∈ ctx.path n)
    (H3n : ∀ x p, x ∈ ctx.path n → ctx.parent x = some p → p ∈ ctx.path n)
    (hs : s ∉ ctx.path n)
    (inv : ∀ x, s ∈ ctx.path x → st.written x = false) :
    (∀ m, OutUnit.span s m ∉ (write_retrace_span ctx st n pre).2)
    ∧ ∀ x, s ∈ ctx.path x →
        (write_retrace_span ctx st n pre).1.written x = false := by
  by_cases h : some n = st.current_span
  · rw [write_retrace_span, if_pos h]
    exact ⟨fun m => List.not_mem_nil _, fun x hx => inv x hx⟩
  · rw [write_retrace_ne ctx st n pre h]
    have hsub : retraceDiff ctx st.current_span n ⊆ ctx.path n :=
      (differenceIter_sublist (ctx.path n) (oldPathOf ctx st.current_span)).subset
    constructor
    · intro m hmem
      rcases retraceLoop_units_shape ctx pre _ 0 _ _ hmem with ⟨x, hx, hcase⟩
      rcases hcase with ⟨m', hm'⟩ | ⟨p, hpar, hp⟩
      · have hxs : x = s := (OutUnit.span.injEq _ _ _ _).mp hm'.symm |>.1
        exact hs (hsub (hxs ▸ hx))
      · have hps : p = s := (OutUnit.span.injEq _ _ _ _).mp hp.symm |>.1
        exact hs (H3n x s (hsub hx) (hps ▸ hpar))
    · intro x hx
      by_cases hxds : x ∈ retraceDiff ctx st.current_span n
      · exact absurd (H2n x (hsub hxds) hx) hs
      · rw [retraceLoop_written_not_mem ctx pre _ 0 _ x hxds]
        exact inv x hx

theorem on_new_span_deferred (cfg : Config) (ctx : Ctx) (st : LayerState)
    (id : Nat) (hdef : cfg.deferred_spans = true) :
    (on_new_span cfg ctx st id).2 = [] := by
  rw [on_new_span]
  by_cases hd : st.hasData id = true <;> simp [hd, hdef]

theorem on_new_span_deferred_written (cfg : Config) (ctx : Ctx)
    (st : LayerState) (id : Nat) (hdef : cfg.deferred_spans = true) (x : Nat) :
    (on_new_span cfg ctx st id).1.written x
      = if st.hasData id then st.written x
        else if x = id then false else st.written x := by
  rw [on_new_span]
  by_cases hd : st.hasData id = true
  · simp [hd, hdef]
  · by_cases hx : x = id <;> simp [hd, hdef, hx]

theorem on_event_clean (cfg : Config) (ctx : Ctx) (s : Nat) (st : LayerState)
    (cur : Option Nat)
    (H2 : ∀ c x, x ∈ ctx.path c → s ∈ ctx.path x → s ∈ ctx.path c)
    (H3 : ∀ c x p, x ∈ ctx.path c → ctx.parent x = some p → p ∈ ctx.path c)
    (hcur : ∀ c, cur = some c → s ∉ ctx.path c)
    (inv : ∀ x, s ∈ ctx.path x → st.written x = false) :
    (∀ m, OutUnit.span s m ∉ (on_event cfg ctx st cur).2)
    ∧ ∀ x, s ∈ ctx.path x → (on_event cfg ctx st cur).1.written x = false := by
  simp only [on_event]
  cases cur with
  | none =>
    refine ⟨fun m hm => ?_, fun x hx => inv x hx⟩
    simp at hm
  | some c =>
    by_cases hl : ctx.live c = true
    · by_cases hf : (cfg.span_retrace || cfg.deferred_spans) = true
      · have hclean := write_retrace_clean ctx s c st cfg.verbose_entry
          (H2 c) (H3 c) (hcur c rfl) inv
        refine ⟨fun m hm => ?_, fun x hx => by simpa [hl, hf] using hclean.2 x hx⟩
        simp only [hl, hf, if_true, List.mem_append] at hm
        rcases hm with hm | hm
        · exact hclean.1 m hm
        · simp at hm
      · refine ⟨fun m hm => ?_, fun x hx => by simpa [hl, hf] using inv x hx⟩
        simp [hl, hf] at hm
    · refine ⟨fun m hm => ?_, fun x hx => by simpa [hl] using inv x hx⟩
      simp [hl] at hm

theorem on_close_clean (cfg : Config) (ctx : Ctx) (s : Nat) (st : LayerState)
    (id : Nat) (hdef : cfg.deferred_spans = true)
    (H1 : ∀ c, c ∈ ctx.path c)
    (H3 : ∀ c x p, x ∈ ctx.path c → ctx.parent x = some p → p ∈ ctx.path c)
    (inv : ∀ x, s ∈ ctx.path x → st.written x = false) :
    (∀ m, OutUnit.span s m ∉ (on_close cfg ctx st id).2)
    ∧ ∀ x, s ∈ ctx.path x → (on_close cfg ctx st id).1.written x = false := by
  rw [on_close]
  by_cases hsup : (cfg.deferred_spans
      && !((if st.hasData id then some (st.written id) else none) == some true))
      = true
  · refine ⟨fun m hm => ?_, fun x hx => by simpa [hsup] using inv x hx⟩
    simp [hsup] at hm
  · have hw : st.hasData id = true ∧ st.written id = true := by
      by_cases hd : st.hasData id = true
      · refine ⟨hd, ?_⟩
        by_cases hwr : st.written id = true
        · exact hwr
        · exact absurd (by simp [hdef, hd, hwr]) hsup
      · exact absurd (by simp [hdef, hd]) hsup
    have hids : id ≠ s := by
      intro h
      have := inv id (h ▸ H1 s)
      rw [this] at hw
      exact Bool.false_ne_true hw.2
    constructor
    · intro m hm
      simp only [hsup, if_false] at hm
      cases hpar : ctx.parent id with
      | none =>
        rw [hpar] at hm
        simp at hm
        exact hids (hm.1.symm)
      | some p =>
        rw [hpar] at hm
        simp at hm
        rcases hm with ⟨h, _⟩ | hm
        · exact hids h.symm
        · by_cases hv : cfg.verbose_exit = true
          · rw [hv] at hm
            simp at hm
            have hps : p = s := hm.1.symm
            have : s ∈ ctx.path id := H3 id id s (H1 id) (hps ▸ hpar)
            have := inv id this
            rw [this] at hw
            exact Bool.false_ne_true hw.2
          · rw [Bool.not_eq_true] at hv
            rw [hv] at hm
            simp at hm
    · intro x hx
      simp only [hsup, if_false]
      cases hpar : ctx.parent id <;> simp [hpar, inv x hx]

theorem isBannerFor_event (n : Nat) (c : Option Nat) :
    isBannerFor n (OutUnit.event c) = false := rfl

theorem stepOp_clean (cfg : Config) (ctx : Ctx) (s : Nat) (op : Op)
    (st : LayerState) (hdef : cfg.deferred_spans = true)
    (H1 : ∀ c, c ∈ ctx.path c)
    (H2 : ∀ c x, x ∈ ctx.path c → s ∈ ctx.path x → s ∈ ctx.path c)
    (H3 : ∀ c x p, x ∈ ctx.path c → ctx.parent x = some p → p ∈ ctx.path c)
    (hop : ∀ c, op = Op.event (some c) → s ∉ ctx.path c)
    (inv : ∀ x, s ∈ ctx.path x → st.written x = false) :
    (∀ m, OutUnit.span s m ∉ (stepOp cfg ctx op st).2)
    ∧ ∀ x, s ∈ ctx.path x → (stepOp cfg ctx op st).1.written x = false := by
  cases op with
  | newSpan id =>
    constructor
    · intro m hm
      rw [stepOp, on_new_span_deferred cfg ctx st id hdef] at hm
      exact List.not_mem_nil _ hm
    · intro x hx
      rw [stepOp, on_new_span_deferred_written cfg ctx st id hdef x]
      by_cases hd : st.hasData id = true
      · simp [hd, inv x hx]
      · by_cases hxid : x = id <;> simp [hd, hxid, inv x hx]
  | event cur =>
    exact on_event_clean cfg ctx s st cur H2 H3
      (fun c hc => hop c (by rw [hc])) inv
  | close id =>
    exact on_close_clean cfg ctx s st id hdef H1 H3 inv

theorem runOps_clean (cfg : Config) (ctx : Ctx) (s : Nat)
    (hdef : cfg.deferred_spans = true)
    (H1 : ∀ c, c ∈ ctx.path c)
    (H2 : ∀ c x, x ∈ ctx.path c → s ∈ ctx.path x → s ∈ ctx.path c)
    (H3 : ∀ c x p, x ∈ ctx.path c → ctx.parent x = some p → p ∈ ctx.path c) :
    ∀ (ops : List Op) (st : LayerState),
      (∀ c, Op.event (some c) ∈ ops → s ∉ ctx.path c) →
      (∀ x, s ∈ ctx.path x → st.written x = false) →
      ∀ m, OutUnit.span s m ∉ (runOps cfg ctx ops st).2 := by
  intro ops
  induction ops with
  | nil => intro st _ _ m hm; exact List.not_mem_nil _ hm
  | cons op rest ih =>
    intro st hops inv m hm
    have hstep := stepOp_clean cfg ctx s op st hdef H1 H2 H3
      (fun c hc => hops c (hc ▸ List.mem_cons_self op rest)) inv
    rw [runOps] at hm
    rcases List.mem_append.mp hm with hm | hm
    · exact hstep.1 m hm
    · exact ih (stepOp cfg ctx op st).1
        (fun c hc => hops c (List.mem_cons_of_mem op hc)) hstep.2 m hm

/-! ## Same-span events: fixed points of `on_event` -/

theorem on_event_dead (cfg : Config) (ctx : Ctx) (st : LayerState) (n : Nat)
    (hl : ctx.live n = false) :
    on_event cfg ctx st (some n) = (st, [OutUnit.event (some n)]) := by
  simp [on_event, hl]

theorem on_event_noflags (cfg : Config) (ctx : Ctx) (st : LayerState) (n : Nat)
    (hf : (cfg.span_retrace || cfg.deferred_spans) = false) :
    on_event cfg ctx st (some n) = (st, [OutUnit.event (some n)]) := by
  by_cases hl : ctx.live n = true <;> simp [on_event, hl, hf]

theorem on_event_fixed (cfg : Config) (ctx : Ctx) (st : LayerState) (n : Nat)
    (h : st.current_span = some n) :
    on_event cfg ctx st (some n) = (st, [OutUnit.event (some n)]) := by
  by_cases hl : ctx.live n = true
  · by_cases hf : (cfg.span_retrace || cfg.deferred_spans) = true
    · simp [on_event, hl, hf, write_retrace_same ctx st n cfg.verbose_entry h]
    · exact on_event_noflags cfg ctx st n (Bool.not_eq_true _ ▸ hf)
  · exact on_event_dead cfg ctx st n (Bool.not_eq_true _ ▸ hl)

theorem on_event_post_fixed (cfg : Config) (ctx : Ctx) (st : LayerState)
    (n : Nat) :
    on_event cfg ctx (on_event cfg ctx st (some n)).1 (some n)
      = ((on_event cfg ctx st (some n)).1, [OutUnit.event (some n)]) := by
  by_cases hl : ctx.live n = true
  · by_cases hf : (cfg.span_retrace || cfg.deferred_spans) = true
    · have h1 : (on_event cfg ctx st (some n)).1.current_span = some n := by
        simp [on_event, hl, hf, write_retrace_current]
      exact on_event_fixed cfg ctx _ n h1
    · exact on_event_noflags cfg ctx _ n (Bool.not_eq_true _ ▸ hf)
  · exact on_event_dead cfg ctx _ n (Bool.not_eq_true _ ▸ hl)

theorem runOps_events_fixed (cfg : Config) (ctx : Ctx) (n : Nat) :
    ∀ (ops : List Op) (st : LayerState),
      on_event cfg ctx st (some n) = (st, [OutUnit.event (some n)]) →
      (∀ op ∈ ops, op = Op.event (some n)) →
      runOps cfg ctx ops st
        = (st, List.replicate ops.length (OutUnit.event (some n))) := by
  intro ops
  induction ops with
  | nil => intro st _ _; rfl
  | cons op rest ih =>
    intro st hfix hops
    have hop : op = Op.event (some n) := hops op (List.mem_cons_self op rest)
    subst hop
    rw [runOps]
    simp only [stepOp, hfix]
    rw [ih st hfix (fun op hop => hops op (List.mem_cons_of_mem _ hop))]
    rfl

theorem on_event_banner_le_one (cfg : Config) (ctx : Ctx) (st : LayerState)
    (n : Nat) (hnd : (ctx.path n).Nodup) :
    ((on_event cfg ctx st (some n)).2).countP (isBannerFor n) ≤ 1 := by
  have hbound : ∀ st' : LayerState,
      ((write_retrace_span ctx st' n cfg.verbose_entry).2).countP
        (isBannerFor n) ≤ 1 := by
    intro st'
    by_cases h : some n = st'.current_span
    · rw [write_retrace_span, if_pos h]
      exact Nat.zero_le 1
    · rw [write_retrace_ne ctx st' n cfg.verbose_entry h,
        retraceLoop_countP_banner]
      calc (retraceDiff ctx st'.current_span n).count n
          ≤ (ctx.path n).count n :=
            (differenceIter_sublist (ctx.path n)
              (oldPathOf ctx st'.current_span)).count_le n
        _ ≤ 1 := List.nodup_iff_count_le_one.mp hnd n
  by_cases hl : ctx.live n = true
  · by_cases hf : (cfg.span_retrace || cfg.deferred_spans) = true
    · simpa [on_event, hl, hf, List.countP_append, isBannerFor_event]
        using hbound st
    · simp [on_event_noflags cfg ctx st n (Bool.not_eq_true _ ▸ hf),
        isBannerFor_event]
  · simp [on_event_dead cfg ctx st n (Bool.not_eq_true _ ▸ hl),
      isBannerFor_event]

/-! ## Concrete instances used by witnesses and counterexamples -/

/-- A registry with root 1, child 2 of 1, and children 3 and 4 of 2, so
that span 3 has root path [1, 2, 3] and span 4 has root path [1, 2, 4]. -/
def ctxC1 : Ctx where
  parent := fun n =>
    if n = 1 then none else if n = 2 then some 1
    else if n = 3 then some 2 else if n = 4 then some 2 else none
  path := fun n =>
    if n = 1 then [1] else if n = 2 then [1, 2]
    else if n = 3 then [1, 2, 3] else if n = 4 then [1, 2, 4] else []
  live := fun _ => true

/-- All spans have data, none written yet, focus on span 3. -/
def stC1 : LayerState where
  written := fun _ => false
  hasData := fun _ => true
  current_span := some 3

/-- Like `stC1` but with every span already written. -/
def st7 : LayerState where
  written := fun _ => true
  hasData := fun _ => true
  current_span := some 3

def cfg5 : Config := { Config.default with span_retrace := true, ansi := false }

def cfg7 : Config :=
  { Config.default with
    span_retrace := true
    verbose_entry := true
    ansi := false }

def cfgD : Config := { Config.default with deferred_spans := true, ansi := false }

/-- A degenerate registry where every span is a root. -/
def ctxD : Ctx where
  parent := fun _ => none
  path := fun c => [c]
  live := fun _ => true

def stD : LayerState where
  written := fun _ => false
  hasData := fun _ => false
  current_span := none

/-! ## Claims -/

/-- C1: when the reconciler runs with previous span P and new span N
(P ≠ N), the spans it marks for print (the `Open`/`Retrace` banner units)
are exactly the suffix of N's root path beyond the longest common prefix
of path(P) and path(N), computed pairwise from the root by span-id
identity, in root-to-leaf order; in particular, reconciling from path
[1, 2, 3] to path [1, 2, 4] emits exactly the banner for 4 and nothing
for 1 or 2. -/
theorem c1_retrace_emits_lcp_suffix :
    (∀ (ctx : Ctx) (st : LayerState) (P N : Nat) (pre : Bool),
      st.current_span = some P →
      ctx.live P = true →
      P ≠ N →
      isChain ctx.parent none (ctx.path P) = true →
      isChain ctx.parent none (ctx.path N) = true →
      (((write_retrace_span ctx st N pre).2).filter isOpenOrRetrace).map unitId
        = (ctx.path N).drop (lcp (ctx.path P) (ctx.path N)).length)
    ∧ (write_retrace_span ctxC1 stC1 4 false).2
        = [OutUnit.span 4 (SpanMode.Open false)] := by
  constructor
  · intro ctx st P N pre hcur hlive hne hchP hchN
    have hne' : ¬ some N = st.current_span := by
      rw [hcur]
      intro h
      exact hne (Option.some_injective _ h).symm
    rw [write_retrace_ne ctx st N pre hne', retraceLoop_or_ids, retraceDiff,
      hcur]
    simp only [oldPathOf, hlive, if_true]
    exact differenceIter_eq_drop ctx.parent (ctx.path N) (ctx.path P) none
      hchP hchN
  · decide

theorem c1_witness :
    (((write_retrace_span ctxC1 stC1 4 false).2).filter isOpenOrRetrace).map
        unitId = [4] := by
  have h := c1_retrace_emits_lcp_suffix.1 ctxC1 stC1 3 4 false rfl rfl
    (by decide) (by decide) (by decide)
  rw [h]
  decide

/-- C3: every span in the reconciled suffix is printed with connector
mode `Open` when its `written` flag was false before the reconciliation
and `Retrace` when it was true, and in both cases the flag is set to
true by the transition. -/
theorem c3_suffix_modes_and_written :
    ∀ (ctx : Ctx) (st : LayerState) (N : Nat) (pre : Bool),
      ¬ some N = st.current_span →
      (retraceDiff ctx st.current_span N).Nodup →
      (∀ s ∈ retraceDiff ctx st.current_span N, st.hasData s = true) →
      ((write_retrace_span ctx st N pre).2).filter isOpenOrRetrace
        = ((retraceDiff ctx st.current_span N).enum).map (fun p =>
            OutUnit.span p.2
              ((if st.written p.2 then SpanMode.Retrace else SpanMode.Open)
                (p.1 == 0 && pre && (ctx.parent p.2).isSome)))
      ∧ ∀ s ∈ retraceDiff ctx st.current_span N,
          (write_retrace_span ctx st N pre).1.written s = true := by
  intro ctx st N pre hne hnd hdata
  rw [write_retrace_ne ctx st N pre hne]
  constructor
  · exact retraceLoop_or_units ctx pre _ 0 _ hnd hdata
  · intro t ht
    exact retraceLoop_written_mem ctx pre _ 0 _ t ht hdata

theorem c3_witness :
    ((write_retrace_span ctxC1 stC1 4 true).2).filter isOpenOrRetrace
        = [OutUnit.span 4 (SpanMode.Open true)]
      ∧ (write_retrace_span ctxC1 stC1 4 true).1.written 4 = true := by
  have h := c3_suffix_modes_and_written ctxC1 stC1 4 true (by decide)
    (by decide) (fun s _ => rfl)
  constructor
  · rw [h.1]
    decide
  · exact h.2 4 (by decide)

/-- C4: a lifecycle callback invoked on a thread whose thread-local
rendering flag is already taken (the thread is inside one of these
callbacks) is a silent no-op: no output, no state change; and an
invocation that does acquire the guard releases it again on completion. -/
theorem c4_nested_callback_noop (cfg : Config) (ctx : Ctx) (st : LayerState)
    (id : Nat) (cur : Option Nat) :
    on_new_span_guarded cfg ctx false st id = ((false, st), [])
    ∧ on_event_guarded cfg ctx false st cur = ((false, st), [])
    ∧ on_close_guarded cfg ctx false st id = ((false, st), [])
    ∧ on_event_guarded cfg ctx true st cur
        = ((true, (on_event cfg ctx st cur).1), (on_event cfg ctx st cur).2) :=
  ⟨rfl, rfl, rfl, rfl⟩

/-- C5: the reconciler first replaces `current_span` with N while
capturing the prior value, emits nothing when the prior value is N, and
hence a run of consecutive events in one span produces at most one
banner for that span: all events after the first add only their own
event line. -/
theorem c5_same_span_single_banner :
    (∀ (ctx : Ctx) (st : LayerState) (n : Nat) (pre : Bool),
      (write_retrace_span ctx st n pre).1.current_span = some n
      ∧ (st.current_span = some n → (write_retrace_span ctx st n pre).2 = []))
    ∧ (∀ (cfg : Config) (ctx : Ctx) (st : LayerState) (n : Nat) (ops : List Op),
        (∀ op ∈ ops, op = Op.event (some n)) →
        (ctx.path n).Nodup →
        ((runOps cfg ctx ops st).2).countP (isBannerFor n) ≤ 1
        ∧ (runOps cfg ctx ops st).2
            = (match ops with
               | [] => []
               | _ :: rest => (on_event cfg ctx st (some n)).2
                   ++ List.replicate rest.length (OutUnit.event (some n)))) := by
  constructor
  · intro ctx st n pre
    refine ⟨write_retrace_current ctx st n pre, fun h => ?_⟩
    rw [write_retrace_same ctx st n pre h]
  · intro cfg ctx st n ops hops hnd
    cases ops with
    | nil => exact ⟨Nat.zero_le 1, rfl⟩
    | cons op rest =>
      have hop : op = Op.event (some n) := hops op (List.mem_cons_self op rest)
      subst hop
      have hrest := runOps_events_fixed cfg ctx n rest
        (on_event cfg ctx st (some n)).1 (on_event_post_fixed cfg ctx st n)
        (fun op hmem => hops op (List.mem_cons_of_mem _ hmem))
      have hout : (runOps cfg ctx (Op.event (some n) :: rest) st).2
          = (on_event cfg ctx st (some n)).2
            ++ List.replicate rest.length (OutUnit.event (some n)) := by
        rw [runOps]
        simp only [stepOp, hrest]
      refine ⟨?_, hout⟩
      rw [hout, List.countP_append]
      have hzero : (List.replicate rest.length
          (OutUnit.event (some n))).countP (isBannerFor n) = 0 := by
        refine List.countP_eq_zero.mpr fun u hu => ?_
        rw [List.eq_of_mem_replicate hu]
        simp [isBannerFor_event]
      rw [hzero, Nat.add_zero]
      exact on_event_banner_le_one cfg ctx st n hnd

theorem c5_witness :
    ((runOps cfg5 ctxC1 [Op.event (some 4), Op.event (some 4)] stC1).2).countP
      (isBannerFor 4) ≤ 1 :=
  (c5_same_span_single_banner.2 cfg5 ctxC1 stC1 4
    [Op.event (some 4), Op.event (some 4)] (by decide) (by decide)).1

/-- C2: with deferred spans enabled, span creation renders nothing, a
close of a span whose `written` flag is still false renders nothing, and
a span in whose subtree no event ever occurs contributes no output unit
at all over a whole trace of callbacks. -/
theorem c2_deferred_silent (cfg : Config) (ctx : Ctx)
    (hdef : cfg.deferred_spans = true) :
    (∀ (st : LayerState) (id : Nat), (on_new_span cfg ctx st id).2 = [])
    ∧ (∀ (st : LayerState) (id : Nat), st.written id = false →
        (on_close cfg ctx st id).2 = [])
    ∧ (∀ (s : Nat) (ops : List Op) (st : LayerState),
        (∀ c, c ∈ ctx.path c) →
        (∀ c x, x ∈ ctx.path c → s ∈ ctx.path x → s ∈ ctx.path c) →
        (∀ c x p, x ∈ ctx.path c → ctx.parent x = some p → p ∈ ctx.path c) →
        (∀ c, Op.event (some c) ∈ ops → s ∉ ctx.path c) →
        (∀ x, s ∈ ctx.path x → st.written x = false) →
        ∀ m, OutUnit.span s m ∉ (runOps cfg ctx ops st).2) := by
  refine ⟨fun st id => on_new_span_deferred cfg ctx st id hdef,
    fun st id hw => ?_, fun s ops st H1 H2 H3 hops inv =>
      runOps_clean cfg ctx s hdef H1 H2 H3 ops st hops inv⟩
  simp only [on_close]
  by_cases hd : st.hasData id = true <;> simp [hdef, hd, hw]

theorem c2_witness :
    (on_new_span cfgD ctxD stD 1).2 = []
    ∧ OutUnit.span 1 (SpanMode.Open false)
        ∉ (runOps cfgD ctxD [Op.newSpan 1, Op.close 1] stD).2 := by
  have h := c2_deferred_silent cfgD ctxD rfl
  refine ⟨h.1 stD 1, h.2.2 1 [Op.newSpan 1, Op.close 1] stD ?_ ?_ ?_ ?_ ?_
    (SpanMode.Open false)⟩
  · intro c
    simp [ctxD]
  · intro c x hx hs
    simp [ctxD] at hx hs ⊢
    exact hs.trans hx
  · intro c x q hx hq
    exact absurd hq (by simp [ctxD])
  · intro c hc
    simp at hc
  · intro x _
    rfl

/-- C7 (amended): during reconciliation the immediate parent of the
first suffix element receives one `PreOpen` banner, placed before the
suffix, exactly when the `pre_open` flag is set and that parent exists;
and both triggers — a new span entry and a bare event — pass
`verbose_entry` as `pre_open`, so PreOpen appears for bare events too
whenever verbose entry is configured. -/
theorem c7_preopen_characterization :
    (∀ (ctx : Ctx) (st : LayerState) (N : Nat) (pre : Bool),
      ¬ some N = st.current_span →
      ((write_retrace_span ctx st N pre).2).filter isPreOpenUnit
        = (if pre then
            (match retraceDiff ctx st.current_span N with
             | [] => []
             | s :: _ =>
               (match ctx.parent s with
                | some p => [OutUnit.span p SpanMode.PreOpen]
                | none => []))
          else [])
      ∧ (write_retrace_span ctx st N pre).2
          = ((write_retrace_span ctx st N pre).2).filter isPreOpenUnit
            ++ ((write_retrace_span ctx st N pre).2).filter isOpenOrRetrace)
    ∧ (∀ (cfg : Config) (ctx : Ctx) (st : LayerState) (id : Nat),
        cfg.deferred_spans = false → cfg.span_retrace = true →
        st.hasData id = true →
        on_new_span cfg ctx st id = write_retrace_span ctx st id
          cfg.verbose_entry)
    ∧ (∀ (cfg : Config) (ctx : Ctx) (st : LayerState) (n : Nat),
        ctx.live n = true →
        (cfg.span_retrace || cfg.deferred_spans) = true →
        on_event cfg ctx st (some n)
          = ((write_retrace_span ctx st n cfg.verbose_entry).1,
             (write_retrace_span ctx st n cfg.verbose_entry).2
               ++ [OutUnit.event (some n)])) := by
  refine ⟨fun ctx st N pre hne => ?_, fun cfg ctx st id hdef hret hdata => ?_,
    fun cfg ctx st n hl hf => ?_⟩
  · rw [write_retrace_ne ctx st N pre hne]
    exact ⟨retraceLoop_filter_preopen_zero ctx pre _ _,
      retraceLoop_decomp_zero ctx pre _ _⟩
  · simp [on_new_span, hdef, hret, hdata]
  · simp [on_event, hl, hf]

/-- C7, counterexample to the claim as stated: with verbose entry
configured, a reconciliation triggered by a bare event (through
`on_event`, not a new span entry) does emit a `PreOpen` banner for the
parent of the first suffix element. -/
theorem c7_counterexample :
    cfg7.verbose_entry = true
    ∧ ((on_event cfg7 ctxC1 st7 (some 4)).2).filter isPreOpenUnit
        = [OutUnit.span 2 SpanMode.PreOpen] := ⟨rfl, by decide⟩

theorem c7_witness :
    on_event cfg7 ctxC1 st7 (some 4)
      = ((write_retrace_span ctxC1 st7 4 cfg7.verbose_entry).1,
         (write_retrace_span ctxC1 st7 4 cfg7.verbose_entry).2
           ++ [OutUnit.event (some 4)]) :=
  c7_preopen_characterization.2.2 cfg7 ctxC1 st7 4 rfl rfl

/-! ## Claims about the renderer and the time formatter -/

theorem closeSide_not_openSide (style : SpanMode) :
    isCloseSide style = true → isOpenSide style = false := by
  cases style <;> simp [isCloseSide, isOpenSide]

theorem openSide_not_closeSide (style : SpanMode) :
    isOpenSide style = true → isCloseSide style = false := by
  cases style <;> simp [isCloseSide, isOpenSide]

theorem succ_mod_mod (d W : Nat) : (d % W + 1) % W = (d + 1) % W := by
  conv_rhs => rw [Nat.add_mod]
  rw [Nat.add_mod (d % W) 1 W, Nat.mod_mod_of_dvd d dvd_rfl]

theorem pos_of_mod_pos {d W : Nat} (h : 0 < d % W) : 0 < d := by
  rcases Nat.eq_zero_or_pos d with h0 | h1
  · subst h0
    simp at h
  · exact h1

/-- In box-drawing mode the flushed text decomposes into an optional
close-side wrap marker, the indented content block at the effective
depth, and an optional open-side wrap marker. -/
theorem indent_current_decomp (cfg : Config) (pfx : String) (d : Nat)
    (style : SpanMode) (buf : String) (hbox : cfg.indent_lines = true) :
    indent_current cfg pfx d style buf
      = (if isCloseSide style = true ∧ 0 < d ∧ (d + 1) % cfg.wraparound = 0 then
          pfx ++ hfill (d % cfg.wraparound * cfg.indent_amount)
            ++ LINE_OPEN ++ "\n"
        else "")
        ++ indent_block (buf ++ "\n") (d % cfg.wraparound) cfg.indent_amount
            true pfx style
        ++ (if isOpenSide style = true ∧ 0 < d ∧ (d + 1) % cfg.wraparound = 0 then
            pfx ++ hfill (d % cfg.wraparound * cfg.indent_amount)
              ++ LINE_CLOSE ++ "\n"
          else "") := by
  cases style <;> simp [indent_current, hbox, isCloseSide, isOpenSide]

/-- C6 (amended): a unit at depth d is rendered at effective depth
d mod W (the content block is the block at depth d mod W, and for
0 < d mod W the whole output coincides with the output at depth
d mod W); and when box drawing is on, d > 0 and (d+1) mod W = 0,
exactly one wrap marker is emitted — before the content block for
Close/PostClose and after it for Open/PreOpen — while without those
conditions (in particular at d = 0) the output is the bare content
block with no marker. -/
theorem c6_wraparound_markers (cfg : Config) (pfx : String) (d : Nat)
    (style : SpanMode) (buf : String) (hbox : cfg.indent_lines = true) :
    (0 < d % cfg.wraparound →
      indent_current cfg pfx d style buf
        = indent_current cfg pfx (d % cfg.wraparound) style buf)
    ∧ (isCloseSide style = true → 0 < d → (d + 1) % cfg.wraparound = 0 →
        indent_current cfg pfx d style buf
          = (pfx ++ hfill (d % cfg.wraparound * cfg.indent_amount)
              ++ LINE_OPEN ++ "\n")
            ++ indent_block (buf ++ "\n") (d % cfg.wraparound)
                cfg.indent_amount true pfx style)
    ∧ (isOpenSide style = true → 0 < d → (d + 1) % cfg.wraparound = 0 →
        indent_current cfg pfx d style buf
          = indent_block (buf ++ "\n") (d % cfg.wraparound)
              cfg.indent_amount true pfx style
            ++ (pfx ++ hfill (d % cfg.wraparound * cfg.indent_amount)
                ++ LINE_CLOSE ++ "\n"))
    ∧ (¬ (0 < d ∧ (d + 1) % cfg.wraparound = 0) →
        indent_current cfg pfx d style buf
          = indent_block (buf ++ "\n") (d % cfg.wraparound)
              cfg.indent_amount true pfx style) := by
  refine ⟨fun hpos => ?_, fun hcs hd hb => ?_, fun hos hd hb => ?_,
    fun hnot => ?_⟩
  · have hd : 0 < d := pos_of_mod_pos hpos
    rw [indent_current_decomp cfg pfx d style buf hbox,
      indent_current_decomp cfg pfx (d % cfg.wraparound) style buf hbox,
      Nat.mod_mod_of_dvd d dvd_rfl, succ_mod_mod]
    simp only [show (0 < d) ↔ (0 < d % cfg.wraparound) from
      ⟨fun _ => hpos, fun _ => hd⟩]
  · rw [indent_current_decomp cfg pfx d style buf hbox,
      if_pos (show isCloseSide style = true ∧ 0 < d
          ∧ (d + 1) % cfg.wraparound = 0 from ⟨hcs, hd, hb⟩),
      if_neg (show ¬ (isOpenSide style = true ∧ 0 < d
          ∧ (d + 1) % cfg.wraparound = 0) from fun h => by
        rw [closeSide_not_openSide style hcs] at h
        exact Bool.false_ne_true h.1),
      String.append_empty]
  · rw [indent_current_decomp cfg pfx d style buf hbox,
      if_neg (show ¬ (isCloseSide style = true ∧ 0 < d
          ∧ (d + 1) % cfg.wraparound = 0) from fun h => by
        rw [openSide_not_closeSide style hos] at h
        exact Bool.false_ne_true h.1),
      if_pos (show isOpenSide style = true ∧ 0 < d
          ∧ (d + 1) % cfg.wraparound = 0 from ⟨hos, hd, hb⟩),
      String.empty_append]
  · rw [indent_current_decomp cfg pfx d style buf hbox,
      if_neg (show ¬ (isCloseSide style = true ∧ 0 < d
          ∧ (d + 1) % cfg.wraparound = 0) from fun h => hnot ⟨h.2.1, h.2.2⟩),
      if_neg (show ¬ (isOpenSide style = true ∧ 0 < d
          ∧ (d + 1) % cfg.wraparound = 0) from fun h => hnot ⟨h.2.1, h.2.2⟩),
      String.empty_append, String.append_empty]

def cfgW1 : Config :=
  { Config.default with
    indent_lines := true
    wraparound := 1
    ansi := false }

def cfg36 : Config :=
  { Config.default with
    indent_lines := true
    wraparound := 3
    ansi := false }

/-- C6, counterexample to the claim as stated: with wraparound 1 and box
drawing on, a Close at depth 0 satisfies (d+1) mod W = 0, yet the output
is the bare content block — no wrap marker line is emitted, because the
code additionally requires d > 0. -/
theorem c6_counterexample :
    cfgW1.indent_lines = true
    ∧ (0 + 1) % cfgW1.wraparound = 0
    ∧ indent_current cfgW1 "" 0 (SpanMode.Close false) "x" = "┘x\n"
    ∧ indent_current cfgW1 "" 0 (SpanMode.Close false) "x"
        ≠ ("" ++ hfill (0 % cfgW1.wraparound * cfgW1.indent_amount)
            ++ LINE_OPEN ++ "\n")
          ++ indent_block ("x" ++ "\n") (0 % cfgW1.wraparound)
              cfgW1.indent_amount true "" (SpanMode.Close false) := by
  refine ⟨rfl, by decide, by decide, by decide⟩

theorem c6_witness :
    cfg36.indent_lines = true
    ∧ indent_current cfg36 "" 2 (SpanMode.Close false) "x"
        = ("" ++ hfill (2 % cfg36.wraparound * cfg36.indent_amount)
            ++ LINE_OPEN ++ "\n")
          ++ indent_block ("x" ++ "\n") (2 % cfg36.wraparound)
              cfg36.indent_amount true "" (SpanMode.Close false) :=
  ⟨rfl, (c6_wraparound_markers cfg36 "" 2 (SpanMode.Close false) "x" rfl).2.1
    rfl (by decide) (by decide)⟩

def cfg8 : Config :=
  { Config.default with
    indent_lines := true
    ansi := false }

/-- C8 (amended): with the default indent unit of 2 and box drawing
enabled, a non-verbose Open banner at depth 1 produces a line whose
glyph prefix before the span text is └─┐ (lower corner, one horizontal
fill, opening corner). -/
theorem c8_open_banner_prefix :
    (∀ line : String,
      indent_block_with_lines [line] 1 2 "" (SpanMode.Open false)
        = "└─┐" ++ line ++ "\n")
    ∧ indent_current cfg8 "" 1 (SpanMode.Open false) "hello"
        = "└─┐hello\n" := by
  constructor
  · intro line
    have h0 : indent_block_with_lines [line] 1 2 "" (SpanMode.Open false)
        = ("" ++ spaces 0)
          ++ (String.singleton LINE_OPEN2 ++ hfill 1 ++ LINE_OPEN)
          ++ line ++ "\n" ++ String.join [] := rfl
    have h1 : ("" ++ spaces 0)
        ++ (String.singleton LINE_OPEN2 ++ hfill 1 ++ LINE_OPEN) = "└─┐" := by
      decide
    have h2 : String.join [] = "" := rfl
    rw [h0, h1, h2, String.append_empty]
  · decide

/-- C8, counterexample to the claim as stated: the depth-1 non-verbose
Open line with indent unit 2 is not the branch glyph ├── followed by
the text; it is └─┐ followed by the text. -/
theorem c8_counterexample :
    indent_block_with_lines ["hello"] 1 2 "" (SpanMode.Open false)
        = "└─┐hello\n"
    ∧ indent_block_with_lines ["hello"] 1 2 "" (SpanMode.Open false)
        ≠ "├──" ++ "hello" ++ "\n" := ⟨by decide, by decide⟩

/-- C9: the non-higher-precision elapsed-time formatter scales its unit
by elapsed time: strictly below 1000 ms it renders whole milliseconds;
otherwise strictly below 60 s it renders whole seconds; otherwise it
renders minutes computed by integer division of the whole seconds by 60
with no rounding up. -/
theorem c9_timestamp_scaling (d : Duration) :
    (d.nanos < 1000000000 →
      format_timestamp false d
        = rightAlign3 (toString (d.nanos / 1000000)) ++ "ms")
    ∧ (1000000000 ≤ d.nanos → d.nanos < 60000000000 →
      format_timestamp false d
        = rightAlign3 (toString (d.nanos / 1000000000)) ++ "s ")
    ∧ (60000000000 ≤ d.nanos →
      format_timestamp false d
        = rightAlign3 (toString (d.nanos / 1000000000 / 60)) ++ "m ") := by
  refine ⟨fun h => ?_, fun h1 h2 => ?_, fun h => ?_⟩
  · have hm : d.nanos / 1000000 < 1000 :=
      (Nat.div_lt_iff_lt_mul (by norm_num)).mpr (by omega)
    simp [format_timestamp, Duration.as_millis, Duration.as_secs,
      write_style_timestamp, styled, hm]
  · have hm : ¬ d.nanos / 1000000 < 1000 := by
      have : 1000 ≤ d.nanos / 1000000 :=
        (Nat.le_div_iff_mul_le (by norm_num)).mpr (by omega)
      omega
    have hs : d.nanos / 1000000000 < 60 :=
      (Nat.div_lt_iff_lt_mul (by norm_num)).mpr (by omega)
    simp [format_timestamp, Duration.as_millis, Duration.as_secs,
      write_style_timestamp, styled, hm, hs]
  · have hm : ¬ d.nanos / 1000000 < 1000 := by
      have : 1000 ≤ d.nanos / 1000000 :=
        (Nat.le_div_iff_mul_le (by norm_num)).mpr (by omega)
      omega
    have hs : ¬ d.nanos / 1000000000 < 60 := by
      have : 60 ≤ d.nanos / 1000000000 :=
        (Nat.le_div_iff_mul_le (by norm_num)).mpr (by omega)
      omega
    simp [format_timestamp, Duration.as_millis, Duration.as_secs,
      write_style_timestamp, styled, hm, hs]

theorem c9_witness :
    format_timestamp false ⟨500000000⟩ = "500ms"
    ∧ format_timestamp false ⟨5000000000⟩ = "  5s "
    ∧ format_timestamp false ⟨120000000000⟩ = "  2m " := by
  refine ⟨?_, ?_, ?_⟩
  · rw [(c9_timestamp_scaling ⟨500000000⟩).1 (by norm_num)]
    decide
  · rw [(c9_timestamp_scaling ⟨5000000000⟩).2.1 (by norm_num) (by norm_num)]
    decide
  · rw [(c9_timestamp_scaling ⟨120000000000⟩).2.2 (by norm_num)]
    decide

/-- C10: a Close banner with verbose exit disabled contains none of the
span's text content: `should_write` is false for it, so the flushed line
is exactly the indentation of the optional span-mode label alone,
independent of the span's name, target and fields. -/
theorem c10_close_banner_no_content (cfg : Config) (pfx name target : String)
    (kvs : List (String × String)) (indent : Nat) :
    write_span_info cfg pfx name target kvs indent (SpanMode.Close false)
      = indent_current cfg pfx indent (SpanMode.Close false)
          (if cfg.span_modes then "close: " else "") := by
  rw [write_span_info]
  have hsw : should_write cfg (SpanMode.Close false) = false := rfl
  rw [hsw]
  simp only [Bool.false_eq_true, if_false]
  have hlabel : write_span_mode (SpanMode.Close false) = "close: " := by decide
  rw [hlabel]

end TracingTree
